import Mathlib

/-!
# Verification of the media-blob-kit asynchronous processing core

Shallow embedding of the Rust media-asset service (job queue, worker pool,
image transformer, upload pipeline, reconciler) together with proofs that
settle the frozen claims about its specification.

Conventions of the embedding:
* UUIDs and timestamps are modelled as `Nat`.
* Rust `String`s are modelled as Lean `String`s; the byte-indexed slicing of
  `routes/files.rs` / `services/cleanup.rs` is modelled on `List Char`
  (all strings involved are ASCII, where byte and character indices agree).
* JSON values are modelled by the inductive `JVal`.
* Fallible Rust code (`Result<_, E>`) is modelled with `Except`.
* The `f64` arithmetic of the `image` crate's `resize_dimensions` is modelled
  exactly over `ℚ` (the values involved are ratios of `u32`-sized integers).
-/

namespace MediaBlobKit

/-! ## String helpers on `List Char`

`findSub` models Rust's `str::find(pattern)` (first index of a substring),
restricted to ASCII where byte indices and char indices coincide. -/

/-- `pr` is a prefix of `s` (boolean, executable). -/
def prefB : List Char → List Char → Bool
  | [], _ => true
  | _ :: _, [] => false
  | a :: as, b :: bs => a == b && prefB as bs

/-- First index at which the pattern `pat` occurs in `s`, if any.
Models `str::find(&pat)` from Rust. -/
def findSub (pat : List Char) : List Char → Option Nat
  | [] => if prefB pat [] then some 0 else none
  | c :: cs =>
    if prefB pat (c :: cs) then some 0
    else (findSub pat cs).map (· + 1)

/-- `s` contains `pat` as a substring (boolean). -/
def containsSub (pat s : List Char) : Bool :=
  (findSub pat s).isSome

/-! ## The URL-to-key resolver

Embeds the key-extraction logic that `routes/files.rs` (`get_file_content`,
`delete_file`) and `services/cleanup.rs` (`clean_soft_deleted_projects`)
each inline:

```rust
if let Some(idx) = v.find(&format!("/{}/", bucket)) {
    Some(v[idx + bucket.len() + 2..].to_string())
} else if let Ok(url) = url::Url::parse(v) {
    Some(url.path().trim_start_matches('/').to_string())
} else {
    None
}
```

`urlPathOpt` models `url::Url::parse(v).map(|u| u.path())` for the
hierarchical URLs this code meets: parsing succeeds only when the string
starts with a nonempty scheme followed by `"://"`, and the path is the part
of the string from the first `/` after the authority.  A bare object key
(which contains no `:` at all) fails to parse in the `url` crate
(`RelativeUrlWithoutBase`) exactly as it fails here. -/

/-- A character allowed in a URL scheme (`ALPHA / DIGIT / + / - / .`). -/
def schemeChar (c : Char) : Bool :=
  c.isAlpha || c.isDigit || c == '+' || c == '-' || c == '.'

/-- Model of `url::Url::parse(v).map(|u| u.path())` for hierarchical URLs:
requires `<scheme>://`, then returns everything from the first `/` after the
authority (empty if the authority is not followed by a path). -/
def urlPathOpt (v : List Char) : Option (List Char) :=
  match findSub "://".toList v with
  | none => none
  | some i =>
    if 0 < i && (v.take i).all schemeChar && (v.headD ' ').isAlpha then
      let rest := v.drop (i + 3)
      some (rest.dropWhile (· ≠ '/'))
    else none

/-- Model of Rust `str::trim_start_matches('/')`. -/
def trimLeadSlash (s : List Char) : List Char :=
  s.dropWhile (· == '/')

/-- The readers' URL-or-key resolver: bucket-segment split, else URL parse,
else `none` (the reader then *skips* the value). -/
def resolveKeyOpt (bucket v : List Char) : Option (List Char) :=
  let pat := '/' :: (bucket ++ ['/'])
  match findSub pat v with
  | some idx => some (v.drop (idx + bucket.length + 2))
  | none =>
    match urlPathOpt v with
    | some p => some (trimLeadSlash p)
    | none => none

/-! ## JSON values and the data model

`JVal` models the `serde_json::Value`s the program builds and inspects
(only the shapes it actually uses: null, strings, numbers, objects).
Objects are association lists in construction/iteration order. -/

inductive JVal where
  | null : JVal
  | str : String → JVal
  | num : Nat → JVal
  | obj : List (String × JVal) → JVal

/-- Model of `map.get(key)` on a JSON object (first binding wins);
`none` when the value is not an object or the key is absent. -/
def jGet (v : JVal) (key : String) : Option JVal :=
  match v with
  | .obj fields =>
    match fields.find? (fun kv => kv.1 == key) with
    | some kv => some kv.2
    | none => none
  | _ => none

/-- Model of `payload.get("type").and_then(|v| v.as_str())`
from `Worker::handle_job`. -/
def payloadType (p : JVal) : Option String :=
  match jGet p "type" with
  | some (.str s) => some s
  | _ => none

/-- `VariantConfig` from `src/models/settings.rs` (all fields optional). -/
structure VariantConfig where
  format : Option String := none
  quality : Option Nat := none
  width : Option Nat := none
  height : Option Nat := none
  maxWidth : Option Nat := none
  maxHeight : Option Nat := none
  fit : Option String := none
deriving DecidableEq, Repr

/-- A row of the `jobs` table (`id`, `file_id`, `status`, `payload`,
`created_at`; `updated_at` carries no claim-relevant information and is
omitted).  UUIDs and timestamps are modelled as `Nat`. -/
structure Job where
  id : Nat
  fileId : Nat
  status : String
  payload : JVal
  createdAt : Nat

/-- A row of the `files` table (`src/entities/file.rs`).  `variants_json`
is modelled as an association list name ↦ stored string, the only shape the
program ever writes into it. -/
structure FileRow where
  id : Nat
  projectId : Nat
  s3Key : String
  filename : String
  mimeType : String
  size : Nat
  status : String
  variantsJson : List (String × String)
deriving DecidableEq, Repr

/-- A row of the `projects` table: `settings` is kept as raw JSON exactly as
the routes read it (`p.settings.get("variants")`). -/
structure ProjectRow where
  id : Nat
  ownerId : Nat
  name : String
  settings : JVal
  deletedAt : Option Nat

/-! ## Job store operations (`src/services/worker.rs`)

The claim transaction (`SELECT … FOR UPDATE SKIP LOCKED; UPDATE …; COMMIT`)
is atomic and serializable: concurrent committed claims are equivalent to
some serial order of atomic claim steps, which is how we model them.  The
database is a list of job rows. -/

/-- Accumulating minimum by `createdAt` (earliest row wins, first row wins
ties), the effect of `ORDER BY created_at ASC LIMIT 1`. -/
def minByCreated : Option Job → List Job → Option Job
  | acc, [] => acc
  | acc, j :: js =>
    minByCreated
      (match acc with
       | none => some j
       | some b => if j.createdAt < b.createdAt then some j else some b) js

/-- `SELECT … WHERE status='pending' ORDER BY created_at ASC LIMIT 1`. -/
def selectPending (db : List Job) : Option Job :=
  minByCreated none (db.filter (fun j => j.status == "pending"))

/-- `UPDATE jobs SET status=st WHERE id=i` (every row with matching id). -/
def setJobStatus (db : List Job) (i : Nat) (st : String) : List Job :=
  db.map (fun j => if j.id == i then { j with status := st } else j)

/-- `Worker::claim_next_job`: one atomic claim transaction.  Returns the
updated database and the claimed row (already at `processing`), if any. -/
def claimNextJob (db : List Job) : List Job × Option Job :=
  match selectPending db with
  | none => (db, none)
  | some j => (setJobStatus db j.id "processing", some { j with status := "processing" })

/-- `N` workers each performing one (serialized, atomic) claim attempt;
returns the final database and the ids of the successfully claimed rows. -/
def runClaims : Nat → List Job → List Job × List Nat
  | 0, db => (db, [])
  | n + 1, db =>
    match claimNextJob db with
    | (db2, some j) =>
      let res := runClaims n db2
      (res.1, j.id :: res.2)
    | (_, none) => runClaims n db

/-- Number of rows with the given status. -/
def countStatus (db : List Job) (st : String) : Nat :=
  (db.filter (fun j => j.status == st)).length

/-- `Worker::recover_stuck_jobs`:
`UPDATE jobs SET status = 'pending' WHERE status = 'processing'`. -/
def recoverStuckJobs (db : List Job) : List Job :=
  db.map (fun j => if j.status == "processing" then { j with status := "pending" } else j)

/-- The specification's transition order
`pending → processing → {completed, failed}` as a rank function. -/
def statusRank : String → Nat
  | "pending" => 0
  | "processing" => 1
  | "completed" => 2
  | "failed" => 2
  | _ => 0

/-! ## Worker job handling (`src/services/worker.rs`)

The S3 and image-transformer effects are parameterized as `Except`-valued
oracles; only the database writes they cause are under verification. -/

/-- `sanitize_bucket_name` (`src/routes/upload.rs`, also in `src/utils`):
lowercase, then every non-alphanumeric character becomes `-` (Rust's
`to_lowercase` acts per character on the ASCII project names at hand). -/
def sanitizeBucketName (s : String) : String :=
  String.mk (s.toList.map (fun c =>
    let lc := c.toLower
    if lc.isAlphanum then lc else '-'))

/-- Variant file extension derived from the returned mime type
(`Worker::process_image_logic`). -/
def extOfMime (mime : String) : String :=
  if mime == "image/avif" then "avif"
  else if mime == "image/webp" then "webp"
  else if mime == "image/png" then "png"
  else if mime == "image/jpeg" then "jpg"
  else "bin"

/-- The variant object key the worker composes:
`<sanitize(project.name)>-<project.id>/images/<variant>/<file.id>.<ext>`. -/
def mkVariantKey (pname : String) (pid : Nat) (variant : String) (fid : Nat)
    (ext : String) : String :=
  sanitizeBucketName pname ++ "-" ++ toString pid ++ "/images/" ++ variant
    ++ "/" ++ toString fid ++ "." ++ ext

/-- The per-variant loop of `Worker::process_image_logic`: transform, derive
the extension from the returned mime, compose the key, upload, record
name ↦ key in the accumulator.  The first failing variant aborts the whole
computation (`?` operator). `transform` models the blocking
`image_processor::process_image` call (its returned mime type is all the
database write depends on); `put` models `s3.put_object`. -/
def processVariants (proj : ProjectRow) (f : FileRow)
    (transform : VariantConfig → Except String String)
    (put : String → Except String Unit) :
    List (String × VariantConfig) → Except String (List (String × String))
  | [] => .ok []
  | (name, cfg) :: rest => do
    let mime ← transform cfg
    let key := mkVariantKey proj.name proj.id name f.id (extOfMime mime)
    let _ ← put key
    let acc ← processVariants proj f transform put rest
    .ok ((name, key) :: acc)

/-- `Worker::process_image_logic`: download the original (`getOrig`, which
also stands for the project lookup), process every variant, and only then
produce the updated file row (`status='ready'`, `variants_json` = the
accumulator).  Any failure aborts before the file row update. -/
def processImageLogic (proj : ProjectRow) (f : FileRow)
    (getOrig : Except String Unit)
    (transform : VariantConfig → Except String String)
    (put : String → Except String Unit)
    (variants : List (String × VariantConfig)) : Except String FileRow := do
  let _ ← getOrig
  let acc ← processVariants proj f transform put variants
  .ok { f with status := "ready", variantsJson := acc }

/-- `UPDATE files SET … WHERE id = f.id` (the active-model update). -/
def updateFileRow (db : List FileRow) (f : FileRow) : List FileRow :=
  db.map (fun g => if g.id == f.id then f else g)

/-- Run one process-file-with-variants job against the files table: the
file row is written only when `process_image_logic` succeeded. -/
def runProcessJob (db : List FileRow) (proj : ProjectRow) (f : FileRow)
    (getOrig : Except String Unit)
    (transform : VariantConfig → Except String String)
    (put : String → Except String Unit)
    (variants : List (String × VariantConfig)) :
    List FileRow × Except String Unit :=
  match processImageLogic proj f getOrig transform put variants with
  | .ok f2 => (updateFileRow db f2, .ok ())
  | .error e => (db, .error e)

/-- `Worker::perform_job`'s terminal update: `completed` on success;
`failed` with the payload rewritten to `{error, original_payload}` on
failure. -/
def performJob (j : Job) (result : Except String Unit) : Job :=
  match result with
  | .ok _ => { j with status := "completed" }
  | .error e =>
    { j with status := "failed",
             payload := .obj [("error", .str e), ("original_payload", j.payload)] }

/-- The sync-variants endpoint's image-file condition
(`src/routes/projects.rs`): the conjunction of its two live filters,
`mime_type LIKE 'image/%'` (the `image/` prefix) and
`mime_type LIKE '%image%'` (SeaORM `contains`); the second is implied by
the first, so the effective condition is the `image/` prefix. -/
def isImageFile (f : FileRow) : Bool :=
  prefB "image/".toList f.mimeType.toList
    && containsSub "image".toList f.mimeType.toList

/-- `POST /projects/{id}/sync-variants` (`src/routes/projects.rs`,
`sync_variants`): find the live project owned by the caller; then — inline
in the endpoint — insert one job per file passing the image filters, each
with payload
`{type: "sync_file_variants", variants_config: <settings.variants>}`
and status `pending`; respond with the number of jobs queued.  `newId`
supplies the fresh `Uuid::new_v4` values and `now` the clock.  Returns
`none` (HTTP 404) when no live owned project matches. -/
def syncVariantsEndpoint (projects : List ProjectRow) (files : List FileRow)
    (userId pid : Nat) (newId : Nat → Nat) (now : Nat) :
    Option (List Job × Nat) :=
  match projects.find? (fun p =>
      p.id == pid && p.ownerId == userId && p.deletedAt.isNone) with
  | none => none
  | some p =>
    let variantsJson := (jGet p.settings "variants").getD (.obj [])
    let imgs := files.filter (fun f => f.projectId == pid && isImageFile f)
    let newJobs := (List.range imgs.length).zip imgs |>.map (fun ki =>
      { id := newId ki.1, fileId := ki.2.id, status := "pending",
        payload := .obj [("type", .str "sync_file_variants"),
                         ("variants_config", variantsJson)],
        createdAt := now : Job })
    some (newJobs, newJobs.length)

/-! ## The image transformer (`src/utils/image_processor.rs`)

`processImage` embeds `process_image` over the `image`-crate primitives it
calls, abstracted as `ImageOps` (the pixel data plays no role in the claims
at this level).  The faithful feature that decides the quality claims is
the signature actually used by the source: the generic
`DynamicImage::write_to(&mut buffer, output_format)` call, which takes no
quality argument — the source's `match output_format { _ => write_to … }`
uses it for every format. -/

/-- The image formats `process_image` distinguishes. -/
inductive ImgFormat where
  | avif | webp | png | jpeg | other
deriving DecidableEq, Repr

/-- Mime type associated to a detected format (`"original"` branch). -/
def mimeOfFormat : ImgFormat → String
  | .avif => "image/avif"
  | .webp => "image/webp"
  | .png => "image/png"
  | .jpeg => "image/jpeg"
  | .other => "application/octet-stream"

/-- `u32::MAX`. -/
def u32Max : Nat := 4294967295

/-- The `image` crate operations `process_image` calls, abstracted over the
image representation `Img`. -/
structure ImageOps (Img : Type) where
  loadFromMemory : List Nat → Except String Img
  resize : Img → Nat → Nat → Img
  resizeExact : Img → Nat → Nat → Img
  resizeToFill : Img → Nat → Nat → Img
  guessFormat : List Nat → Except String ImgFormat
  writeTo : Img → ImgFormat → Except String (List Nat)

/-- `image_processor::process_image(data, config)`: decode, resize by the
fit/width/height policy, pick the output format, encode.  Error messages
are the source's literal `format!` strings. -/
def processImage {Img : Type} (ops : ImageOps Img) (data : List Nat)
    (config : VariantConfig) : Except String (List Nat × String) := do
  let img0 ← match ops.loadFromMemory data with
    | .ok i => Except.ok i
    | .error e => Except.error ("Failed to load image: " ++ e)
  let fit := config.fit.getD "contain"
  let img :=
    match config.width, config.height with
    | some w, some h =>
      if fit == "cover" || fit == "center-crop" then ops.resizeToFill img0 w h
      else if fit == "fill" || fit == "stretch" || fit == "exact" then
        ops.resizeExact img0 w h
      else ops.resize img0 w h
    | some w, none => ops.resize img0 w u32Max
    | none, some h => ops.resize img0 u32Max h
    | none, none =>
      match config.maxWidth, config.maxHeight with
      | some w, some h => ops.resize img0 w h
      | _, _ => img0
  let fm ← (match config.format.getD "original" with
    | "avif" => Except.ok (ImgFormat.avif, "image/avif")
    | "webp" => Except.ok (ImgFormat.webp, "image/webp")
    | "png" => Except.ok (ImgFormat.png, "image/png")
    | "jpg" => Except.ok (ImgFormat.jpeg, "image/jpeg")
    | "jpeg" => Except.ok (ImgFormat.jpeg, "image/jpeg")
    | "original" =>
      match ops.guessFormat data with
      | .ok f => Except.ok (f, mimeOfFormat f)
      | .error e => Except.error ("Failed to guess format: " ++ e)
    | _ => Except.ok (ImgFormat.jpeg, "image/jpeg"))
  let out ← match ops.writeTo img fm.1 with
    | .ok b => Except.ok b
    | .error e => Except.error ("Failed to encode image: " ++ e)
  Except.ok (out, fm.2)

/-! ## Output dimensions of the transformer

The `image` crate's dimension arithmetic, embedded exactly with `f64`
idealized to `ℚ` (all quantities are ratios of `u32`-sized integers). -/

/-- `f64::round` (half away from zero) on the nonnegative values at hand. -/
def rndQ (q : ℚ) : ℤ := ⌊q + 1 / 2⌋

/-- `image::math::utils::resize_dimensions(width, height, nwidth, nheight,
fill)`: the dimension computation behind `DynamicImage::resize` (fill =
false) and `resize_to_fill` (fill = true), including the `u32::MAX`
overflow caps. -/
def resizeDims (w h nw nh : Nat) (fill : Bool) : Nat × Nat :=
  let wratio : ℚ := (nw : ℚ) / (w : ℚ)
  let hratio : ℚ := (nh : ℚ) / (h : ℚ)
  let ratio := if fill then max wratio hratio else min wratio hratio
  let nw2 : ℤ := max (rndQ ((w : ℚ) * ratio)) 1
  let nh2 : ℤ := max (rndQ ((h : ℚ) * ratio)) 1
  if nw2 > (u32Max : ℤ) then
    let r2 : ℚ := (u32Max : ℚ) / (w : ℚ)
    (u32Max, (max (rndQ ((h : ℚ) * r2)) 1).toNat)
  else if nh2 > (u32Max : ℤ) then
    let r2 : ℚ := (u32Max : ℚ) / (h : ℚ)
    ((max (rndQ ((w : ℚ) * r2)) 1).toNat, u32Max)
  else (nw2.toNat, nh2.toNat)

/-- Output size of `crop`/`crop_imm` (`image::imageops::crop_dimms`): the
requested rectangle clipped to the image. -/
def cropDims (iw ih x y cw ch : Nat) : Nat × Nat :=
  let x2 := min x iw
  let y2 := min y ih
  (min cw (iw - x2), min ch (ih - y2))

/-- `DynamicImage::resize_to_fill(nw, nh, filter)` at the level of output
dimensions: resize with `fill = true`, then center-crop along the
overshooting axis. -/
def resizeToFillDims (w h nw nh : Nat) : Nat × Nat :=
  let wh := resizeDims w h nw nh true
  let iw := wh.1
  let ih := wh.2
  if nw * ih > iw * nh then cropDims iw ih 0 ((ih - nh) / 2) nw nh
  else cropDims iw ih ((iw - nw) / 2) 0 nw nh

/-- The resize step of `process_image` at the level of image dimensions:
the same branch structure as `processImage`, with the `image` crate's
dimension semantics substituted for the abstract operations. -/
def processImageDims (iw ih : Nat) (config : VariantConfig) : Nat × Nat :=
  let fit := config.fit.getD "contain"
  match config.width, config.height with
  | some w, some h =>
    if fit == "cover" || fit == "center-crop" then resizeToFillDims iw ih w h
    else if fit == "fill" || fit == "stretch" || fit == "exact" then (w, h)
    else resizeDims iw ih w h false
  | some w, none => resizeDims iw ih w u32Max false
  | none, some h => resizeDims iw ih u32Max h false
  | none, none =>
    match config.maxWidth, config.maxHeight with
    | some w, some h => resizeDims iw ih w h false
    | _, _ => (iw, ih)

/-! ## The upload pipeline (`src/routes/upload.rs`) -/

/-- `get_extension`: `Path::extension()` with fallback `"bin"`, for the
plain (separator-free) filenames of multipart uploads: the part after the
last `.`; no `.`, or a leading `.` with no other `.`, yields no extension. -/
def getExtension (filename : String) : String :=
  let cs := filename.toList
  let afterDot := (cs.reverse).takeWhile (· ≠ '.')
  if afterDot.length = cs.length then "bin"
  else
    let stem := cs.take (cs.length - afterDot.length - 1)
    if stem = [] then "bin"
    else String.mk afterDot.reverse

/-- The public URL the upload handler constructs for a stored key:
`{endpoint}/{bucket}/{key}` under an endpoint override, otherwise
`https://{bucket}.s3.{region}.amazonaws.com/{key}`. -/
def publicUrl (endpoint : Option String) (bucket region key : String) : String :=
  match endpoint with
  | some ep => ep ++ "/" ++ bucket ++ "/" ++ key
  | none => "https://" ++ bucket ++ ".s3." ++ region ++ ".amazonaws.com/" ++ key

/-- `upload_image`'s "calculate future variant URLs" loop: for each
configured variant, predict the variant key using the configured format
(or the original extension when absent or `"original"`) and store its
public URL in the map. -/
def predictedVariantsMap (pname : String) (pid fid : Nat) (ext : String)
    (endpoint : Option String) (bucket region : String)
    (variants : List (String × VariantConfig)) : List (String × String) :=
  variants.map (fun nv =>
    let vext0 := nv.2.format.getD ext
    let vext := if vext0 == "original" then ext else vext0
    let key := mkVariantKey pname pid nv.1 fid vext
    (nv.1, publicUrl endpoint bucket region key))

/-- The file row `upload_image` inserts for an image: status `processing`,
`variants_json` pre-filled with the predicted URLs — before any job runs. -/
def uploadImageRow (pname : String) (pid fid : Nat) (filename mime : String)
    (size : Nat) (endpoint : Option String) (bucket region : String)
    (variants : List (String × VariantConfig)) : FileRow :=
  let ext := getExtension filename
  { id := fid, projectId := pid,
    s3Key := sanitizeBucketName pname ++ "-" ++ toString pid
      ++ "/images/original/" ++ toString fid ++ "." ++ ext,
    filename := filename, mimeType := mime, size := size,
    status := "processing",
    variantsJson :=
      predictedVariantsMap pname pid fid ext endpoint bucket region variants }

/-- The S3-deletion targets `delete_file` (and the retention purge) derives
from a file's `variants_json`: each value is passed through the resolver;
unresolvable values are skipped. -/
def variantDeletionKeys (bucket : String) (f : FileRow) : List (List Char) :=
  f.variantsJson.filterMap (fun kv => resolveKeyOpt bucket.toList kv.2.toList)

/-! ## Concrete instantiations used on concrete inputs -/

/-- A trivial instantiation of the image operations: decoding always
succeeds, encoding returns a fixed byte. -/
def constOps : ImageOps Unit where
  loadFromMemory := fun _ => .ok ()
  resize := fun _ _ _ => ()
  resizeExact := fun _ _ _ => ()
  resizeToFill := fun _ _ _ => ()
  guessFormat := fun _ => .ok .png
  writeTo := fun _ _ => .ok [7]

/-- An instantiation whose decoder rejects every input. -/
def failDecodeOps : ImageOps Unit :=
  { constOps with loadFromMemory := fun _ => .error "unsupported image format" }

/-- Concrete live project whose settings configure one variant. -/
def wSyncProj : ProjectRow :=
  ⟨1, 9, "P", .obj [("variants", .obj [("thumb", .obj [])])], none⟩

/-- Concrete image file belonging to that project. -/
def wSyncFile : FileRow := ⟨5, 1, "k", "a.png", "image/png", 1, "ready", []⟩

/-- Concrete three-row jobs table (two pending, one completed). -/
def wdbC1 : List Job :=
  [⟨1, 10, "pending", .null, 5⟩, ⟨2, 11, "pending", .null, 3⟩,
   ⟨3, 12, "completed", .null, 1⟩]

/-- Concrete project, file and job rows for instantiating the theorems. -/
def wProj : ProjectRow := ⟨1, 1, "My Proj", .obj [], none⟩

/-- Concrete file row at `processing` (as inserted by the image upload). -/
def wFile : FileRow :=
  ⟨2, 1, "my-proj-1/images/original/2.png", "cat.png", "image/png", 10,
   "processing", []⟩

/-- Concrete claimed job for the file. -/
def wJob : Job := ⟨3, 2, "processing", .obj [("variants", .obj [])], 0⟩

/-- Concrete one-variant configuration. -/
def wVariants : List (String × VariantConfig) :=
  [("thumb", { width := some 64, height := some 64, fit := some "cover",
               format := some "webp" })]

end MediaBlobKit

namespace MediaBlobKit

/-! ## Lemmas about the claim protocol -/

theorem minByCreated_some (l : List Job) : ∀ b : Job,
    ∃ j, minByCreated (some b) l = some j ∧ (j = b ∨ j ∈ l) := by
  induction l with
  | nil => exact fun b => ⟨b, rfl, Or.inl rfl⟩
  | cons c cs ih =>
    intro b
    simp only [minByCreated]
    obtain ⟨j, hj, hmem⟩ := ih (if c.createdAt < b.createdAt then c else b)
    rw [apply_ite some] at hj
    refine ⟨j, hj, ?_⟩
    rcases hmem with h | h
    · by_cases hc : c.createdAt < b.createdAt
      · rw [if_pos hc] at h; exact Or.inr (h ▸ List.mem_cons_self c cs)
      · rw [if_neg hc] at h; exact Or.inl h
    · exact Or.inr (List.mem_cons_of_mem _ h)

theorem selectPending_eq_some (db : List Job) (j : Job)
    (h : selectPending db = some j) : j ∈ db ∧ j.status = "pending" := by
  unfold selectPending at h
  cases hf : db.filter (fun j => j.status == "pending") with
  | nil => rw [hf] at h; exact absurd h (by simp [minByCreated])
  | cons c cs =>
    rw [hf] at h
    obtain ⟨j', hj', hmem⟩ := minByCreated_some cs c
    simp only [minByCreated] at h
    rw [hj'] at h
    have hj : j' = j := by injection h
    have hjf : j' ∈ db.filter (fun j => j.status == "pending") := by
      rw [hf]
      rcases hmem with h | h
      · exact h ▸ List.mem_cons_self c cs
      · exact List.mem_cons_of_mem _ h
    have hm := List.mem_filter.mp hjf
    exact ⟨hj ▸ hm.1, hj ▸ (by simpa using hm.2 : j'.status = "pending")⟩

theorem selectPending_eq_none (db : List Job)
    (h : selectPending db = none) : countStatus db "pending" = 0 := by
  unfold selectPending at h
  unfold countStatus
  cases hf : db.filter (fun j => j.status == "pending") with
  | nil => simp [hf]
  | cons c cs =>
    rw [hf] at h
    obtain ⟨j', hj', _⟩ := minByCreated_some cs c
    simp only [minByCreated] at h
    rw [hj'] at h
    cases h

theorem setJobStatus_map_id (db : List Job) (i : Nat) (st : String) :
    (setJobStatus db i st).map Job.id = db.map Job.id := by
  unfold setJobStatus
  rw [List.map_map]
  refine List.map_congr_left (fun j _ => ?_)
  by_cases h : (j.id == i) = true
  · rw [Function.comp_apply, if_pos h]
  · rw [Function.comp_apply, if_neg h]

theorem setJobStatus_eq_of_forall (l : List Job) (i : Nat) (st : String)
    (h : ∀ e ∈ l, e.id ≠ i) : setJobStatus l i st = l := by
  unfold setJobStatus
  induction l with
  | nil => rfl
  | cons c cs ih =>
    have hc : (c.id == i) = false := by
      simp only [beq_eq_false_iff_ne, ne_eq]
      exact h c (List.mem_cons_self c cs)
    simp only [List.map_cons, hc, Bool.false_eq_true, if_false, List.cons.injEq, true_and]
    exact ih (fun e he => h e (List.mem_cons_of_mem _ he))

theorem countStatus_middle (l1 l2 : List Job) (x : Job) (st : String) :
    countStatus (l1 ++ x :: l2) st
      = countStatus l1 st + (if x.status == st then 1 else 0) + countStatus l2 st := by
  simp only [countStatus, List.filter_append, List.filter_cons, List.length_append]
  by_cases h : (x.status == st) = true
  · simp [h]; omega
  · simp [h]

theorem nodup_middle_ids (l1 l2 : List Job) (j : Job)
    (hnd : ((l1 ++ j :: l2).map Job.id).Nodup) :
    (∀ e ∈ l1, e.id ≠ j.id) ∧ (∀ e ∈ l2, e.id ≠ j.id) := by
  rw [List.map_append, List.map_cons] at hnd
  constructor
  · intro e he heq
    have hdisj := List.disjoint_of_nodup_append hnd
    exact hdisj (List.mem_map_of_mem Job.id he) (heq ▸ List.mem_cons_self _ _)
  · intro e he heq
    have hcons := hnd.of_append_right
    have := List.nodup_cons.mp hcons
    exact this.1 (heq ▸ List.mem_map_of_mem Job.id he)

theorem claim_effect (db : List Job) (j : Job)
    (hnd : (db.map Job.id).Nodup) (hmem : j ∈ db) (hst : j.status = "pending") :
    countStatus (setJobStatus db j.id "processing") "pending"
        = countStatus db "pending" - 1 ∧
    countStatus (setJobStatus db j.id "processing") "processing"
        = countStatus db "processing" + 1 ∧
    0 < countStatus db "pending" := by
  obtain ⟨l1, l2, rfl⟩ := List.append_of_mem hmem
  obtain ⟨h1, h2⟩ := nodup_middle_ids l1 l2 j hnd
  have e1 : List.map (fun e => if e.id == j.id then { e with status := "processing" } else e) l1 = l1 :=
    setJobStatus_eq_of_forall l1 j.id "processing" h1
  have e2 : List.map (fun e => if e.id == j.id then { e with status := "processing" } else e) l2 = l2 :=
    setJobStatus_eq_of_forall l2 j.id "processing" h2
  have hset : setJobStatus (l1 ++ j :: l2) j.id "processing"
      = l1 ++ { j with status := "processing" } :: l2 := by
    unfold setJobStatus
    rw [List.map_append, List.map_cons, e1, e2, if_pos (beq_self_eq_true j.id)]
  rw [hset]
  rw [countStatus_middle, countStatus_middle, countStatus_middle, countStatus_middle]
  have hx : (("processing" : String) == "pending") = false := by decide
  have hy : (("pending" : String) == "processing") = false := by decide
  have hz : (("pending" : String) == "pending") = true := by decide
  have hw : (("processing" : String) == "processing") = true := by decide
  simp only [hst, hx, hy, hz, hw, if_true, if_false, Bool.false_eq_true]
  omega

theorem pending_mem_of_setJobStatus (db : List Job) (i : Nat) (e : Job)
    (he : e ∈ setJobStatus db i "processing") (hst : e.status = "pending") :
    e ∈ db := by
  unfold setJobStatus at he
  obtain ⟨a, ha, hfe⟩ := List.mem_map.mp he
  by_cases h : a.id == i
  · rw [if_pos h] at hfe
    rw [← hfe] at hst
    exact absurd hst (by simp)
  · rw [if_neg h] at hfe
    exact hfe ▸ ha

theorem status_of_mem_setJobStatus (db : List Job) (i : Nat) (st : String) (e : Job)
    (he : e ∈ setJobStatus db i st) (hid : e.id = i) : e.status = st := by
  unfold setJobStatus at he
  obtain ⟨a, ha, hfe⟩ := List.mem_map.mp he
  by_cases h : a.id == i
  · rw [if_pos h] at hfe; rw [← hfe]
  · rw [if_neg h] at hfe
    rw [← hfe] at hid
    exact absurd (beq_iff_eq.mpr hid) (by simpa using h)

theorem runClaims_spec (N : Nat) : ∀ (db : List Job),
    (db.map Job.id).Nodup →
    ((runClaims N db).1.map Job.id = db.map Job.id) ∧
    (∀ i ∈ (runClaims N db).2, ∃ j, j ∈ db ∧ j.id = i ∧ j.status = "pending") ∧
    (runClaims N db).2.Nodup ∧
    (runClaims N db).2.length = min N (countStatus db "pending") ∧
    countStatus (runClaims N db).1 "pending" = countStatus db "pending" - N ∧
    countStatus (runClaims N db).1 "processing"
      = countStatus db "processing" + min N (countStatus db "pending") := by
  induction N with
  | zero => intro db _; simp [runClaims]
  | succ n ih =>
    intro db hnd
    cases hsel : selectPending db with
    | none =>
      have hcp := selectPending_eq_none db hsel
      have hstep : runClaims (n + 1) db = runClaims n db := by
        simp [runClaims, claimNextJob, hsel]
      rw [hstep]
      obtain ⟨ha, hb, hc, hd, he, hf⟩ := ih db hnd
      refine ⟨ha, hb, hc, ?_, ?_, ?_⟩
      · rw [hd, hcp]; omega
      · rw [he, hcp]; omega
      · rw [hf, hcp]; omega
    | some j =>
      obtain ⟨hmem, hst⟩ := selectPending_eq_some db j hsel
      obtain ⟨hp1, hp2, hp0⟩ := claim_effect db j hnd hmem hst
      have hnd2 : ((setJobStatus db j.id "processing").map Job.id).Nodup := by
        rw [setJobStatus_map_id]; exact hnd
      have hstep : runClaims (n + 1) db
          = ((runClaims n (setJobStatus db j.id "processing")).1,
             j.id :: (runClaims n (setJobStatus db j.id "processing")).2) := by
        simp [runClaims, claimNextJob, hsel]
      obtain ⟨ha, hb, hc, hd, he, hf⟩ := ih (setJobStatus db j.id "processing") hnd2
      rw [hstep]
      refine ⟨?_, ?_, ?_, ?_, ?_, ?_⟩
      · rw [ha, setJobStatus_map_id]
      · intro i hi
        rcases List.mem_cons.mp hi with h | h
        · exact ⟨j, hmem, h.symm, hst⟩
        · obtain ⟨j', hj'mem, hj'id, hj'st⟩ := hb i h
          exact ⟨j', pending_mem_of_setJobStatus db j.id j' hj'mem hj'st, hj'id, hj'st⟩
      · refine List.nodup_cons.mpr ⟨?_, hc⟩
        intro hin
        obtain ⟨j', hj'mem, hj'id, hj'st⟩ := hb j.id hin
        have hps := status_of_mem_setJobStatus db j.id "processing" j' hj'mem hj'id
        rw [hps] at hj'st
        exact absurd hj'st (by simp)
      · rw [List.length_cons, hd, hp1]; omega
      · rw [he, hp1]; omega
      · rw [hf, hp2, hp1]; omega

/-! ## Claim theorems -/

/-- **C1.** Under concurrent workers, no two workers complete a claim on
the same job row.  Each committed claim transaction (`SELECT … FOR UPDATE
SKIP LOCKED`, `UPDATE … SET status='processing'`, `COMMIT`) is atomic and
serializable, so the committed effects of `N` concurrent workers equal
those of some serial order of `N` atomic claim steps; for every such order
on a table with duplicate-free ids and `M ≤ N` pending jobs, the claimed
rows are pairwise distinct, exactly `M` claims succeed, and exactly the
`M` pending jobs transition to `processing`. -/
theorem c1_concurrent_claims_distinct_and_exact (db : List Job) (N : Nat)
    (hnd : (db.map Job.id).Nodup)
    (hMN : countStatus db "pending" ≤ N) :
    (runClaims N db).2.Nodup ∧
    (runClaims N db).2.length = countStatus db "pending" ∧
    countStatus (runClaims N db).1 "pending" = 0 ∧
    countStatus (runClaims N db).1 "processing"
      = countStatus db "processing" + countStatus db "pending" := by
  obtain ⟨_, _, hc, hd, he, hf⟩ := runClaims_spec N db hnd
  refine ⟨hc, ?_, ?_, ?_⟩
  · rw [hd]; omega
  · rw [he]; omega
  · rw [hf]; omega

/-- Witness for C1: three workers, two pending jobs. -/
theorem c1_concurrent_claims_distinct_and_exact_witness :
    ((wdbC1.map Job.id).Nodup ∧ countStatus wdbC1 "pending" ≤ 3) ∧
    ((runClaims 3 wdbC1).2.Nodup ∧
     (runClaims 3 wdbC1).2.length = countStatus wdbC1 "pending" ∧
     countStatus (runClaims 3 wdbC1).1 "pending" = 0 ∧
     countStatus (runClaims 3 wdbC1).1 "processing"
       = countStatus wdbC1 "processing" + countStatus wdbC1 "pending") :=
  ⟨⟨by decide, by decide⟩,
   c1_concurrent_claims_distinct_and_exact wdbC1 3 (by decide) (by decide)⟩

/-- Shared helper: when every transform and upload succeeds, the variant
loop returns the accumulator of variant-name ↦ composed-key entries. -/
theorem processVariants_ok (proj : ProjectRow) (f : FileRow)
    (transform : VariantConfig → Except String String)
    (put : String → Except String Unit)
    (mimeOf : VariantConfig → String)
    (variants : List (String × VariantConfig))
    (htr : ∀ cfg, transform cfg = .ok (mimeOf cfg))
    (hput : ∀ key, put key = .ok ()) :
    processVariants proj f transform put variants
      = .ok (variants.map (fun nv =>
          (nv.1, mkVariantKey proj.name proj.id nv.1 f.id
                   (extOfMime (mimeOf nv.2))))) := by
  induction variants with
  | nil => rfl
  | cons nv rest ih =>
    obtain ⟨name, cfg⟩ := nv
    simp only [processVariants, htr, hput, ih, List.map_cons]
    rfl

/-- Shared helper: with every effect succeeding, `process_image_logic`
produces the `ready` row carrying the accumulator. -/
theorem processImageLogic_ok (proj : ProjectRow) (f : FileRow)
    (getOrig : Except String Unit)
    (transform : VariantConfig → Except String String)
    (put : String → Except String Unit)
    (mimeOf : VariantConfig → String)
    (variants : List (String × VariantConfig))
    (hget : getOrig = .ok ())
    (htr : ∀ cfg, transform cfg = .ok (mimeOf cfg))
    (hput : ∀ key, put key = .ok ()) :
    processImageLogic proj f getOrig transform put variants
      = .ok { f with status := "ready",
                     variantsJson := variants.map (fun nv =>
                       (nv.1, mkVariantKey proj.name proj.id nv.1 f.id
                                (extOfMime (mimeOf nv.2)))) } := by
  simp only [processImageLogic, hget,
             processVariants_ok proj f transform put mimeOf variants htr hput]
  rfl

/-- **C2.** All-or-nothing per job: when every variant succeeds, the file
row is updated to `status='ready'` with `variants_map` equal to the
accumulator of variant-name ↦ stored-key entries and the job closes
`completed`; when `process_image_logic` fails, the files table is left
completely unchanged (in particular a `processing` status stays
`processing`) and the terminal update sets the job to `failed` with its
payload rewritten to `{error, original_payload}`. -/
theorem c2_process_file_all_or_nothing
    (db : List FileRow) (proj : ProjectRow) (f : FileRow)
    (getOrig : Except String Unit)
    (transform : VariantConfig → Except String String)
    (put : String → Except String Unit)
    (variants : List (String × VariantConfig)) (j : Job)
    (mimeOf : VariantConfig → String) :
    (getOrig = .ok () → (∀ cfg, transform cfg = .ok (mimeOf cfg)) →
      (∀ key, put key = .ok ()) →
      runProcessJob db proj f getOrig transform put variants
        = (updateFileRow db
            { f with status := "ready",
                     variantsJson := variants.map (fun nv =>
                       (nv.1, mkVariantKey proj.name proj.id nv.1 f.id
                                (extOfMime (mimeOf nv.2)))) }, .ok ()) ∧
      (performJob j (.ok ())).status = "completed") ∧
    (∀ e, processImageLogic proj f getOrig transform put variants = .error e →
      (runProcessJob db proj f getOrig transform put variants).1 = db ∧
      (runProcessJob db proj f getOrig transform put variants).2 = .error e ∧
      performJob j (.error e)
        = { j with status := "failed",
                   payload := .obj [("error", .str e),
                                    ("original_payload", j.payload)] }) := by
  constructor
  · intro hget htr hput
    refine ⟨?_, rfl⟩
    unfold runProcessJob
    rw [processImageLogic_ok proj f getOrig transform put mimeOf variants hget htr hput]
  · intro e he
    unfold runProcessJob
    rw [he]
    exact ⟨rfl, rfl, rfl⟩

/-- Witness for C2: on the concrete rows, success writes the `ready` row
with the bare-key accumulator, and a failing job leaves the table as it
was while the terminal update rewrites the payload. -/
theorem c2_process_file_all_or_nothing_witness :
    (runProcessJob [wFile] wProj wFile (.ok ())
        (fun _ => .ok "image/webp") (fun _ => .ok ()) wVariants).1
      = [{ wFile with status := "ready",
                      variantsJson := [("thumb", "my-proj-1/images/thumb/2.webp")] }] ∧
    (performJob wJob (.ok ())).status = "completed" ∧
    (runProcessJob [wFile] wProj wFile (.error "get failed")
        (fun _ => .ok "image/webp") (fun _ => .ok ()) wVariants).1 = [wFile] ∧
    (performJob wJob (.error "get failed")).status = "failed" := by
  have hok := (c2_process_file_all_or_nothing [wFile] wProj wFile (.ok ())
      (fun _ => .ok "image/webp") (fun _ => .ok ()) wVariants wJob
      (fun _ => "image/webp")).1 rfl (fun _ => rfl) (fun _ => rfl)
  have herr := (c2_process_file_all_or_nothing [wFile] wProj wFile
      (.error "get failed") (fun _ => .ok "image/webp") (fun _ => .ok ())
      wVariants wJob (fun _ => "image/webp")).2 "get failed" rfl
  refine ⟨?_, hok.2, herr.1, ?_⟩
  · rw [hok.1]; decide
  · rw [herr.2.2]

/-- **C3 counterexample.** Startup recovery
(`UPDATE jobs SET status='pending' WHERE status='processing'`) moves a
`processing` job back to `pending`: a strictly backwards transition in the
order `pending → processing → {completed, failed}`, so not every operation
is monotonic in that order. -/
theorem c3_counterexample :
    recoverStuckJobs [⟨7, 0, "processing", .null, 0⟩]
        = [⟨7, 0, "pending", .null, 0⟩] ∧
    statusRank "pending" < statusRank "processing" :=
  ⟨rfl, by decide⟩

/-- **C3 (amended).** The claim operation and the terminal update are
monotonic in the order `pending → processing → {completed, failed}` (a
claim only moves a pending row to `processing`; the terminal update moves
the claimed `processing` job to `completed`/`failed`); startup recovery is
the deliberate exception, resetting `processing` jobs to `pending`. -/
theorem c3_amended_claim_and_terminal_monotonic :
    (∀ db : List Job, (db.map Job.id).Nodup →
      List.Forall₂ (fun o n => statusRank o.status ≤ statusRank n.status)
        db (claimNextJob db).1) ∧
    (∀ (j : Job) (r : Except String Unit), j.status = "processing" →
      statusRank j.status ≤ statusRank (performJob j r).status) := by
  constructor
  · intro db hnd
    cases hsel : selectPending db with
    | none =>
      rw [show (claimNextJob db).1 = db by simp [claimNextJob, hsel]]
      exact List.forall₂_same.mpr (fun e _ => le_refl _)
    | some j =>
      obtain ⟨hmem, hst⟩ := selectPending_eq_some db j hsel
      rw [show (claimNextJob db).1 = setJobStatus db j.id "processing" by
        simp [claimNextJob, hsel]]
      unfold setJobStatus
      rw [List.forall₂_map_right_iff]
      refine List.forall₂_same.mpr (fun e he => ?_)
      by_cases hid : (e.id == j.id) = true
      · have hej : e = j := List.inj_on_of_nodup_map hnd he hmem (beq_iff_eq.mp hid)
        rw [if_pos hid]
        change statusRank e.status ≤ statusRank "processing"
        rw [hej, hst]
        decide
      · rw [if_neg hid]
  · intro j r h
    cases r with
    | ok a =>
      change statusRank j.status ≤ statusRank "completed"
      rw [h]; decide
    | error e =>
      change statusRank j.status ≤ statusRank "failed"
      rw [h]; decide

/-- Witness for C3 (amended): a concrete claim step and terminal update. -/
theorem c3_amended_claim_and_terminal_monotonic_witness :
    (([⟨1, 0, "pending", .null, 0⟩] : List Job).map Job.id).Nodup ∧
    List.Forall₂ (fun o n => statusRank o.status ≤ statusRank n.status)
      [(⟨1, 0, "pending", .null, 0⟩ : Job)]
      (claimNextJob [⟨1, 0, "pending", .null, 0⟩]).1 ∧
    (⟨3, 2, "processing", .null, 0⟩ : Job).status = "processing" ∧
    statusRank (⟨3, 2, "processing", .null, 0⟩ : Job).status
      ≤ statusRank (performJob ⟨3, 2, "processing", .null, 0⟩ (.ok ())).status := by
  refine ⟨by decide, ?_, rfl, ?_⟩
  · exact c3_amended_claim_and_terminal_monotonic.1 _ (by decide)
  · exact c3_amended_claim_and_terminal_monotonic.2 _ _ rfl

/-- **C4 counterexample.** With format `jpeg` and qualities 10 vs 90 the
transformer produces identical results on the same input: the encoded
output does not depend on the quality value, so the quality is not applied
to the encoder. -/
theorem c4_counterexample :
    processImage constOps [1, 2, 3]
        { format := some "jpeg", quality := some 10 }
      = processImage constOps [1, 2, 3]
        { format := some "jpeg", quality := some 90 } ∧
    (10 : Nat) ≠ 90 :=
  ⟨rfl, by decide⟩

/-- **C4 (amended).** `quality` is parsed into `VariantConfig` but never
passed to any encoder (the source encodes every format through the generic
`write_to`, which has no quality parameter): the transformer's result is
invariant under changing `quality`, for JPEG/WebP/AVIF just as for PNG. -/
theorem c4_amended_quality_never_applied {Img : Type} (ops : ImageOps Img)
    (data : List Nat) (config : VariantConfig) (q : Option Nat) :
    processImage ops data { config with quality := q }
      = processImage ops data config := rfl

/-- **C5 counterexample.** On a live project with one image file, the
sync-variants endpoint enqueues a single job whose payload type is
`sync_file_variants` — not a `sync_project_variants` job: the fan-out
happens inline in the endpoint, not later in the worker's dispatcher. -/
theorem c5_counterexample :
    ((syncVariantsEndpoint [wSyncProj] [wSyncFile] 9 1 (fun k => 100 + k) 50).map
        (fun r => r.1.map (fun j => payloadType j.payload)))
      = some [some "sync_file_variants"] ∧
    some "sync_file_variants" ≠ some "sync_project_variants" :=
  ⟨rfl, by decide⟩

/-- **C5 (amended).** `POST /projects/{id}/sync-variants` performs the
per-file fan-out inline: for a live project owned by the caller it enqueues
one pending `sync_file_variants` job per image file of the project — each
embedding the settings' variants snapshot — and no `sync_project_variants`
job at all; the reported count is the number of image files.  (The worker
retains a `sync_project_variants` handler, but this endpoint never creates
such a job.) -/
theorem c5_amended_inline_fanout (projects : List ProjectRow)
    (files : List FileRow) (userId pid : Nat) (newId : Nat → Nat) (now : Nat)
    (p : ProjectRow)
    (hfind : projects.find? (fun q =>
        q.id == pid && q.ownerId == userId && q.deletedAt.isNone) = some p) :
    ∀ jobs count,
      syncVariantsEndpoint projects files userId pid newId now = some (jobs, count) →
      count = (files.filter (fun f => f.projectId == pid && isImageFile f)).length ∧
      jobs.length = count ∧
      (∀ j ∈ jobs,
        payloadType j.payload = some "sync_file_variants" ∧
        j.status = "pending" ∧
        jGet j.payload "variants_config"
          = some ((jGet p.settings "variants").getD (.obj []))) ∧
      jobs.filter
        (fun j => payloadType j.payload == some "sync_project_variants") = [] := by
  intro jobs count h
  unfold syncVariantsEndpoint at h
  rw [hfind] at h
  injection h with h
  injection h with hj hc
  subst hj
  subst hc
  refine ⟨?_, ?_, ?_, ?_⟩
  · rw [List.length_map, List.length_zip, List.length_range, min_self]
  · rfl
  · intro j hj
    obtain ⟨ki, _, rfl⟩ := List.mem_map.mp hj
    exact ⟨rfl, rfl, rfl⟩
  · rw [List.filter_eq_nil_iff]
    intro j hj
    obtain ⟨ki, _, rfl⟩ := List.mem_map.mp hj
    exact fun hcon => Bool.noConfusion hcon

/-- Witness for C5 (amended): the concrete one-file project. -/
theorem c5_amended_inline_fanout_witness :
    ([wSyncProj].find? (fun q =>
        q.id == 1 && q.ownerId == 9 && q.deletedAt.isNone) = some wSyncProj) ∧
    (∀ jobs count,
      syncVariantsEndpoint [wSyncProj] [wSyncFile] 9 1 (fun k => 100 + k) 50
        = some (jobs, count) →
      count = ([wSyncFile].filter
        (fun f => f.projectId == 1 && isImageFile f)).length ∧
      jobs.length = count ∧
      (∀ j ∈ jobs,
        payloadType j.payload = some "sync_file_variants" ∧
        j.status = "pending" ∧
        jGet j.payload "variants_config"
          = some ((jGet wSyncProj.settings "variants").getD (.obj []))) ∧
      jobs.filter
        (fun j => payloadType j.payload == some "sync_project_variants") = []) :=
  ⟨rfl, c5_amended_inline_fanout [wSyncProj] [wSyncFile] 9 1
      (fun k => 100 + k) 50 wSyncProj rfl⟩

/-- **C6 (code bug).** The worker writes bare object keys into
`variants_map` (`successful_variants.insert(variant_name, s3_key)`), but
the readers' resolver rejects bare keys: a bare key contains no
`/<bucket>/` segment and has no URL scheme, so `Url::parse` fails and the
resolver yields `none` — `delete_file` and the retention purge then *skip*
the variant object instead of deleting it (and `get_file_content` errors).
Evaluated at a concrete worker-written key. -/
theorem c6_bare_keys_skipped_bug :
    mkVariantKey "My Proj" 1 "thumb" 2 "webp" = "my-proj-1/images/thumb/2.webp" ∧
    resolveKeyOpt "bucket".toList "my-proj-1/images/thumb/2.webp".toList = none ∧
    variantDeletionKeys "bucket"
        { id := 2, projectId := 1, s3Key := "k", filename := "c.png",
          mimeType := "image/png", size := 1, status := "ready",
          variantsJson := [("thumb", "my-proj-1/images/thumb/2.webp")] } = [] := by
  refine ⟨by decide, by decide, by decide⟩

/-- **C7.** The URL-to-key resolver maps both the virtual-host URL and the
path-style URL to the key `a/b/c.jpg` when the bucket is `bucket`: the
path-style URL is split after its `/bucket/` segment, the virtual-host URL
(which contains no `/bucket/`) is parsed as a URL and its path keeps its
leading `/` stripped. -/
theorem c7_resolver_url_examples :
    resolveKeyOpt "bucket".toList
        "https://bucket.s3.us-east-1.amazonaws.com/a/b/c.jpg".toList
      = some "a/b/c.jpg".toList ∧
    resolveKeyOpt "bucket".toList
        "https://cdn.example/bucket/a/b/c.jpg".toList
      = some "a/b/c.jpg".toList :=
  ⟨by decide, by decide⟩

/-- **C8 counterexample.** A decode failure produces the classifier
`"Failed to load image: <cause>"`: the literal stage tag `decode` appears
nowhere in it (and the source has no `resize`-stage error at all), so the
classifier does not carry the tag `decode`. -/
theorem c8_counterexample :
    processImage failDecodeOps [1, 2] { format := some "webp" }
      = .error "Failed to load image: unsupported image format" ∧
    containsSub "decode".toList
      "Failed to load image: unsupported image format".toList = false :=
  ⟨rfl, by decide⟩

/-- **C8 (amended).** For every input whose bytes fail to decode, the
transformer fails with the stage-identifying classifier
`"Failed to load image: <cause>"` (the source's message prefixes play the
role of the spec's `decode`/`encode` stage tags); the worker records that
classifier in the failed job's payload `error` field, rewriting the payload
to `{error, original_payload}`, while the files table — and hence the file
row's `processing` status — is left untouched. -/
theorem c8_decode_failure_path {Img : Type} (ops : ImageOps Img)
    (data : List Nat) (e : String)
    (hdec : ops.loadFromMemory data = .error e)
    (config : VariantConfig) (db : List FileRow) (proj : ProjectRow)
    (f : FileRow) (j : Job) (put : String → Except String Unit)
    (name : String) (rest : List (String × VariantConfig))
    (hst : f.status = "processing") :
    processImage ops data config = .error ("Failed to load image: " ++ e) ∧
    (runProcessJob db proj f (.ok ())
        (fun cfg => (processImage ops data cfg).map Prod.snd) put
        ((name, config) :: rest)).1 = db ∧
    (runProcessJob db proj f (.ok ())
        (fun cfg => (processImage ops data cfg).map Prod.snd) put
        ((name, config) :: rest)).2
      = .error ("Failed to load image: " ++ e) ∧
    (performJob j (.error ("Failed to load image: " ++ e))).status = "failed" ∧
    jGet (performJob j (.error ("Failed to load image: " ++ e))).payload "error"
      = some (.str ("Failed to load image: " ++ e)) ∧
    jGet (performJob j
        (.error ("Failed to load image: " ++ e))).payload "original_payload"
      = some j.payload ∧
    f.status = "processing" := by
  have h1 : processImage ops data config
      = .error ("Failed to load image: " ++ e) := by
    unfold processImage
    rw [hdec]
    rfl
  have h2 : processImageLogic proj f (.ok ())
      (fun cfg => (processImage ops data cfg).map Prod.snd) put
      ((name, config) :: rest)
      = .error ("Failed to load image: " ++ e) := by
    unfold processImageLogic processVariants
    rw [h1]
    rfl
  have h3 : runProcessJob db proj f (.ok ())
      (fun cfg => (processImage ops data cfg).map Prod.snd) put
      ((name, config) :: rest)
      = (db, .error ("Failed to load image: " ++ e)) := by
    unfold runProcessJob
    rw [h2]
  exact ⟨h1, by rw [h3], by rw [h3], rfl, rfl, rfl, hst⟩

/-- Witness for C8 (amended): the rejecting decoder on the concrete rows. -/
theorem c8_decode_failure_path_witness :
    (failDecodeOps.loadFromMemory [1, 2]
        = .error "unsupported image format") ∧
    wFile.status = "processing" ∧
    processImage failDecodeOps [1, 2] { format := some "webp" }
      = .error ("Failed to load image: " ++ "unsupported image format") ∧
    (runProcessJob [wFile] wProj wFile (.ok ())
        (fun cfg => (processImage failDecodeOps [1, 2] cfg).map Prod.snd)
        (fun _ => .ok ())
        [("thumb", { format := some "webp" })]).1 = [wFile] ∧
    (performJob wJob
        (.error ("Failed to load image: " ++ "unsupported image format"))).status
      = "failed" ∧
    jGet (performJob wJob
        (.error ("Failed to load image: " ++ "unsupported image format"))).payload
        "error"
      = some (.str ("Failed to load image: " ++ "unsupported image format")) := by
  have h := c8_decode_failure_path failDecodeOps [1, 2]
      "unsupported image format" rfl { format := some "webp" } [wFile] wProj
      wFile wJob (fun _ => .ok ()) "thumb" [] rfl
  exact ⟨rfl, rfl, h.1, h.2.1, h.2.2.2.1, h.2.2.2.2.1⟩

/-! ### Dimension lemmas for the cover/center-crop claim -/

theorem rndQ_ge (n : Nat) (q : ℚ) (h : (n:ℚ) ≤ q) : (n:ℤ) ≤ rndQ q := by
  unfold rndQ
  rw [Int.le_floor]
  push_cast
  linarith

theorem rndQ_le (n : Nat) (q : ℚ) (h : q ≤ (n:ℚ)) : rndQ q ≤ (n:ℤ) := by
  unfold rndQ
  have h2 : ⌊q + 1/2⌋ ≤ ⌊(n:ℚ) + 1/2⌋ := Int.floor_le_floor (by linarith)
  have h3 : ⌊((n:ℚ) + 1/2)⌋ = (n:ℤ) := by
    rw [Int.floor_eq_iff]
    constructor
    · push_cast; linarith
    · push_cast; linarith
  omega

/-- The `fill = true` branch of `resizeDims`, written without `let`s. -/
theorem resizeDims_true_eq (iw ih w h : Nat) :
    resizeDims iw ih w h true
      = (if max (rndQ ((iw:ℚ) * max ((w:ℚ)/(iw:ℚ)) ((h:ℚ)/(ih:ℚ)))) 1 > (u32Max:ℤ) then
          (u32Max, (max (rndQ ((ih:ℚ) * ((u32Max:ℚ)/(iw:ℚ)))) 1).toNat)
        else if max (rndQ ((ih:ℚ) * max ((w:ℚ)/(iw:ℚ)) ((h:ℚ)/(ih:ℚ)))) 1 > (u32Max:ℤ) then
          ((max (rndQ ((iw:ℚ) * ((u32Max:ℚ)/(ih:ℚ)))) 1).toNat, u32Max)
        else ((max (rndQ ((iw:ℚ) * max ((w:ℚ)/(iw:ℚ)) ((h:ℚ)/(ih:ℚ)))) 1).toNat,
              (max (rndQ ((ih:ℚ) * max ((w:ℚ)/(iw:ℚ)) ((h:ℚ)/(ih:ℚ)))) 1).toNat)) := rfl

/-- Both rounded fill dimensions dominate the targets and stay within
`u32::MAX` under the stated bounds, so no overflow cap fires. -/
theorem fill_ratio_bounds (iw ih w h : Nat)
    (hiw : 0 < iw) (hih : 0 < ih)
    (hwle : w ≤ u32Max) (hhle : h ≤ u32Max)
    (hb1 : iw * h ≤ ih * u32Max) (hb2 : ih * w ≤ iw * u32Max) :
    ((w:ℤ) ≤ rndQ ((iw:ℚ) * max ((w:ℚ)/(iw:ℚ)) ((h:ℚ)/(ih:ℚ))) ∧
     rndQ ((iw:ℚ) * max ((w:ℚ)/(iw:ℚ)) ((h:ℚ)/(ih:ℚ))) ≤ (u32Max:ℤ)) ∧
    ((h:ℤ) ≤ rndQ ((ih:ℚ) * max ((w:ℚ)/(iw:ℚ)) ((h:ℚ)/(ih:ℚ))) ∧
     rndQ ((ih:ℚ) * max ((w:ℚ)/(iw:ℚ)) ((h:ℚ)/(ih:ℚ))) ≤ (u32Max:ℤ)) := by
  have hiwQ : (0:ℚ) < (iw:ℚ) := by exact_mod_cast hiw
  have hihQ : (0:ℚ) < (ih:ℚ) := by exact_mod_cast hih
  have hwid : (iw:ℚ) * ((w:ℚ)/(iw:ℚ)) = (w:ℚ) := by field_simp
  have hhid : (ih:ℚ) * ((h:ℚ)/(ih:ℚ)) = (h:ℚ) := by field_simp
  have hwr : (w:ℚ) ≤ (iw:ℚ) * max ((w:ℚ)/(iw:ℚ)) ((h:ℚ)/(ih:ℚ)) := by
    calc (w:ℚ) = (iw:ℚ) * ((w:ℚ)/(iw:ℚ)) := hwid.symm
    _ ≤ (iw:ℚ) * max ((w:ℚ)/(iw:ℚ)) ((h:ℚ)/(ih:ℚ)) :=
        mul_le_mul_of_nonneg_left (le_max_left _ _) (le_of_lt hiwQ)
  have hhr : (h:ℚ) ≤ (ih:ℚ) * max ((w:ℚ)/(iw:ℚ)) ((h:ℚ)/(ih:ℚ)) := by
    calc (h:ℚ) = (ih:ℚ) * ((h:ℚ)/(ih:ℚ)) := hhid.symm
    _ ≤ (ih:ℚ) * max ((w:ℚ)/(iw:ℚ)) ((h:ℚ)/(ih:ℚ)) :=
        mul_le_mul_of_nonneg_left (le_max_right _ _) (le_of_lt hihQ)
  have hwub : (iw:ℚ) * max ((w:ℚ)/(iw:ℚ)) ((h:ℚ)/(ih:ℚ)) ≤ (u32Max:ℚ) := by
    rw [mul_max_of_nonneg _ _ (le_of_lt hiwQ)]
    apply max_le
    · rw [hwid]; exact_mod_cast hwle
    · rw [← mul_div_assoc, div_le_iff₀ hihQ]
      calc (iw:ℚ) * (h:ℚ) ≤ (ih:ℚ) * (u32Max:ℚ) := by exact_mod_cast hb1
      _ = (u32Max:ℚ) * (ih:ℚ) := mul_comm _ _
  have hhub : (ih:ℚ) * max ((w:ℚ)/(iw:ℚ)) ((h:ℚ)/(ih:ℚ)) ≤ (u32Max:ℚ) := by
    rw [mul_max_of_nonneg _ _ (le_of_lt hihQ)]
    apply max_le
    · rw [← mul_div_assoc, div_le_iff₀ hiwQ]
      calc (ih:ℚ) * (w:ℚ) ≤ (iw:ℚ) * (u32Max:ℚ) := by exact_mod_cast hb2
      _ = (u32Max:ℚ) * (iw:ℚ) := mul_comm _ _
    · rw [hhid]; exact_mod_cast hhle
  exact ⟨⟨rndQ_ge w _ hwr, rndQ_le u32Max _ hwub⟩,
         ⟨rndQ_ge h _ hhr, rndQ_le u32Max _ hhub⟩⟩

/-- When both rounded fill dimensions stay within `u32::MAX`, `resizeDims`
returns them unchanged. -/
theorem resizeDims_true_nocap (iw ih w h : Nat)
    (h1 : ¬ (max (rndQ ((iw:ℚ) * max ((w:ℚ)/(iw:ℚ)) ((h:ℚ)/(ih:ℚ)))) 1 > (u32Max:ℤ)))
    (h2 : ¬ (max (rndQ ((ih:ℚ) * max ((w:ℚ)/(iw:ℚ)) ((h:ℚ)/(ih:ℚ)))) 1 > (u32Max:ℤ))) :
    resizeDims iw ih w h true
      = ((max (rndQ ((iw:ℚ) * max ((w:ℚ)/(iw:ℚ)) ((h:ℚ)/(ih:ℚ)))) 1).toNat,
         (max (rndQ ((ih:ℚ) * max ((w:ℚ)/(iw:ℚ)) ((h:ℚ)/(ih:ℚ)))) 1).toNat) := by
  rw [resizeDims_true_eq, if_neg h1, if_neg h2]

/-- When the fill-resize dominates the targets in both axes, the
center-crop trims exactly to the targets. -/
theorem resizeToFillDims_eq (iw ih w h : Nat)
    (hw1 : w ≤ (resizeDims iw ih w h true).1)
    (hh1 : h ≤ (resizeDims iw ih w h true).2) :
    resizeToFillDims iw ih w h = (w, h) := by
  unfold resizeToFillDims
  set iw0 := (resizeDims iw ih w h true).1 with hiw0
  set ih0 := (resizeDims iw ih w h true).2 with hih0
  by_cases hc : w * ih0 > iw0 * h
  · rw [if_pos hc]
    unfold cropDims
    rw [Prod.mk.injEq]
    exact ⟨by omega, by omega⟩
  · rw [if_neg hc]
    unfold cropDims
    rw [Prod.mk.injEq]
    exact ⟨by omega, by omega⟩

/-- **C9.** With both `width` and `height` present and
`fit ∈ {cover, center-crop}`, the transformer's output has exactly the
requested dimensions: the fill-resize scales so both intermediate
dimensions are at least the targets, and the center-crop then trims to
exactly `(w, h)`.  The bounds `hwle`–`hb2` state that the scaled
intermediate fits in `u32` (no overflow cap fires). -/
theorem c9_cover_exact_dimensions (iw ih w h : Nat) (config : VariantConfig)
    (hiw : 0 < iw) (hih : 0 < ih) (_hw : 0 < w) (_hh : 0 < h)
    (hwle : w ≤ u32Max) (hhle : h ≤ u32Max)
    (hb1 : iw * h ≤ ih * u32Max) (hb2 : ih * w ≤ iw * u32Max)
    (hcw : config.width = some w) (hch : config.height = some h)
    (hfit : config.fit = some "cover" ∨ config.fit = some "center-crop") :
    w ≤ (resizeDims iw ih w h true).1 ∧
    h ≤ (resizeDims iw ih w h true).2 ∧
    processImageDims iw ih config = (w, h) := by
  obtain ⟨⟨hwa, hwu⟩, hha, hhu⟩ :=
    fill_ratio_bounds iw ih w h hiw hih hwle hhle hb1 hb2
  have hu32 : (1:ℤ) ≤ (u32Max:ℤ) := by norm_num [u32Max]
  have hnc1 : ¬ (max (rndQ ((iw:ℚ) * max ((w:ℚ)/(iw:ℚ)) ((h:ℚ)/(ih:ℚ)))) 1
      > (u32Max:ℤ)) := by
    push_neg
    exact max_le hwu hu32
  have hnc2 : ¬ (max (rndQ ((ih:ℚ) * max ((w:ℚ)/(iw:ℚ)) ((h:ℚ)/(ih:ℚ)))) 1
      > (u32Max:ℤ)) := by
    push_neg
    exact max_le hhu hu32
  have hrd := resizeDims_true_nocap iw ih w h hnc1 hnc2
  have hge1 : w ≤ (resizeDims iw ih w h true).1 := by
    rw [hrd]
    rw [Int.le_toNat (by omega)]
    calc (w:ℤ) ≤ rndQ ((iw:ℚ) * max ((w:ℚ)/(iw:ℚ)) ((h:ℚ)/(ih:ℚ))) := hwa
    _ ≤ max (rndQ ((iw:ℚ) * max ((w:ℚ)/(iw:ℚ)) ((h:ℚ)/(ih:ℚ)))) 1 := le_max_left _ _
  have hge2 : h ≤ (resizeDims iw ih w h true).2 := by
    rw [hrd]
    rw [Int.le_toNat (by omega)]
    calc (h:ℤ) ≤ rndQ ((ih:ℚ) * max ((w:ℚ)/(iw:ℚ)) ((h:ℚ)/(ih:ℚ))) := hha
    _ ≤ max (rndQ ((ih:ℚ) * max ((w:ℚ)/(iw:ℚ)) ((h:ℚ)/(ih:ℚ)))) 1 := le_max_left _ _
  refine ⟨hge1, hge2, ?_⟩
  unfold processImageDims
  rw [hcw, hch]
  rcases hfit with hf | hf
  · rw [hf]
    exact resizeToFillDims_eq iw ih w h hge1 hge2
  · rw [hf]
    exact resizeToFillDims_eq iw ih w h hge1 hge2

/-- Witness for C9: a 200×50 input with `fit=cover, width=100, height=100`
yields exactly 100×100. -/
theorem c9_cover_exact_dimensions_witness :
    (0 < 200 ∧ 0 < 50 ∧ 0 < 100 ∧ 100 ≤ u32Max ∧
     200 * 100 ≤ 50 * u32Max ∧ 50 * 100 ≤ 200 * u32Max) ∧
    processImageDims 200 50
        { width := some 100, height := some 100, fit := some "cover" }
      = (100, 100) :=
  ⟨⟨by decide, by decide, by decide, by decide, by decide, by decide⟩,
   (c9_cover_exact_dimensions 200 50 100 100
      { width := some 100, height := some 100, fit := some "cover" }
      (by decide) (by decide) (by decide) (by decide) (by decide) (by decide)
      (by decide) (by decide) rfl rfl (Or.inl rfl)).2.2⟩

/-! ### Upload-prediction lemmas -/

theorem toList_append (s t : String) : (s ++ t).toList = s.toList ++ t.toList := by
  cases s; cases t; rfl

theorem prefB_refl_append (a b : List Char) : prefB a (a ++ b) = true := by
  induction a with
  | nil => rfl
  | cons c cs ih => simp [prefB, ih]

/-- **C10.** After a successful image upload on a project configuring at
least one variant, the inserted file row's `variants_map` is already
non-empty: it holds, for each configured variant, a predicted absolute URL
(https, not a bare key) built from the configured format — or the original
filename's extension when the format is absent or `original` — all before
any job runs; and the worker's later successful completion write replaces
the map by the accumulator of bare object keys.  (Stated for the
AWS-addressing configuration, `endpoint = none`.) -/
theorem c10_upload_prefills_variant_urls (pname : String) (pid fid : Nat)
    (filename mime : String) (size : Nat) (bucket region : String)
    (variants : List (String × VariantConfig))
    (hne : variants ≠ []) :
    (uploadImageRow pname pid fid filename mime size none bucket region variants).status
      = "processing" ∧
    (uploadImageRow pname pid fid filename mime size none bucket region variants).variantsJson
      ≠ [] ∧
    List.Forall₂ (fun nv kv =>
        kv.1 = nv.1 ∧
        kv.2 = publicUrl none bucket region (mkVariantKey pname pid nv.1 fid
          (if nv.2.format.getD (getExtension filename) == "original"
           then getExtension filename
           else nv.2.format.getD (getExtension filename))) ∧
        prefB "https://".toList kv.2.toList = true)
      variants
      (uploadImageRow pname pid fid filename mime size none bucket region variants).variantsJson ∧
    (∀ (proj : ProjectRow) (transform : VariantConfig → Except String String)
        (put : String → Except String Unit) (mimeOf : VariantConfig → String),
      (∀ cfg, transform cfg = .ok (mimeOf cfg)) →
      (∀ key, put key = .ok ()) →
      processImageLogic proj
          (uploadImageRow pname pid fid filename mime size none bucket region variants)
          (.ok ()) transform put variants
        = .ok { uploadImageRow pname pid fid filename mime size none bucket region variants with
                status := "ready",
                variantsJson := variants.map (fun nv =>
                  (nv.1, mkVariantKey proj.name proj.id nv.1
                    (uploadImageRow pname pid fid filename mime size none bucket region variants).id
                    (extOfMime (mimeOf nv.2)))) }) := by
  refine ⟨rfl, ?_, ?_, ?_⟩
  · intro hcon
    exact hne (List.map_eq_nil_iff.mp hcon)
  · rw [show (uploadImageRow pname pid fid filename mime size none bucket
        region variants).variantsJson
        = predictedVariantsMap pname pid fid (getExtension filename) none
            bucket region variants from rfl]
    unfold predictedVariantsMap
    rw [List.forall₂_map_right_iff]
    refine List.forall₂_same.mpr (fun nv _ => ⟨rfl, rfl, ?_⟩)
    show prefB "https://".toList
      (publicUrl none bucket region (mkVariantKey pname pid nv.1 fid
        (if nv.2.format.getD (getExtension filename) == "original"
         then getExtension filename
         else nv.2.format.getD (getExtension filename)))).toList = true
    unfold publicUrl
    simp only [toList_append, List.append_assoc]
    exact prefB_refl_append _ _
  · intro proj transform put mimeOf htr hput
    exact processImageLogic_ok proj _ (.ok ()) transform put mimeOf variants rfl htr hput

/-- Witness for C10: the concrete one-variant upload. -/
theorem c10_upload_prefills_variant_urls_witness :
    wVariants ≠ [] ∧
    (uploadImageRow "My Proj" 1 2 "cat.png" "image/png" 10 none "bucket"
        "us-east-1" wVariants).status = "processing" ∧
    (uploadImageRow "My Proj" 1 2 "cat.png" "image/png" 10 none "bucket"
        "us-east-1" wVariants).variantsJson ≠ [] ∧
    List.Forall₂ (fun nv kv =>
        kv.1 = nv.1 ∧
        kv.2 = publicUrl none "bucket" "us-east-1" (mkVariantKey "My Proj" 1 nv.1 2
          (if nv.2.format.getD (getExtension "cat.png") == "original"
           then getExtension "cat.png"
           else nv.2.format.getD (getExtension "cat.png"))) ∧
        prefB "https://".toList kv.2.toList = true)
      wVariants
      (uploadImageRow "My Proj" 1 2 "cat.png" "image/png" 10 none "bucket"
        "us-east-1" wVariants).variantsJson := by
  have h := c10_upload_prefills_variant_urls "My Proj" 1 2 "cat.png"
      "image/png" 10 "bucket" "us-east-1" wVariants (by decide)
  exact ⟨by decide, h.1, h.2.1, h.2.2.1⟩

end MediaBlobKit
